import Mathlib

/-!
Shallow embedding of `spider.py` (zsxq_spider): the batched-fetch
controller `get_topics_in_batches`, the retrying page fetcher
`get_topics`, the index merge performed by `create_markdown`, and the
filename-derivation helpers `convert_time`, `get_filename_time`,
`sanitize_filename`.

Modelling choices, each noted at its definition:
  - a timestamp string is represented by `CreateTime`: either the
    datetime it parses to (both strptime formats accepted by the source
    collapse to the same parsed value) or the raw string when both
    strptime formats fail;
  - reads of the wall clock (the `time.strftime` fallback in
    `get_filename_time`) become an explicit `now : DTime` parameter;
  - network and filesystem effects become oracles / explicit data: the
    page fetcher is an oracle indexed by call number and cursor, one
    HTTP attempt is an `AttemptOutcome`, and the index file is its list
    of parsed entries.
-/

/-- A naive (timezone-free) datetime, the model of the
`datetime.datetime` values produced by `strptime` in `spider.py`. -/
structure DTime where
  year : Nat
  month : Nat
  day : Nat
  hour : Nat
  minute : Nat
  second : Nat
deriving DecidableEq, Repr

/-- Chronological key of a datetime. For field values in the ranges
`strptime` can produce (month ≤ 12, day ≤ 31, hour ≤ 23, minute and
second ≤ 59, all < 100) this packing is exactly lexicographic, i.e.
chronological, comparison. -/
def DTime.key (d : DTime) : Nat :=
  ((((d.year * 100 + d.month) * 100 + d.day) * 100 + d.hour) * 100 + d.minute) * 100
    + d.second

/-- Model of a `create_time` string from the API: `parsed d` stands for
a string that one of the two accepted strptime formats
(`%Y-%m-%dT%H:%M:%S.%f%z` / `%Y-%m-%dT%H:%M:%S%z`) parses to `d`;
`raw s` stands for a string `s` on which both formats fail. -/
inductive CreateTime where
  | parsed (d : DTime)
  | raw (s : String)
deriving DecidableEq, Repr

/-- Result of attempting to strptime a `create_time` string, as in
`spider.py` lines 273-277 (and the twin try/except ladders in
`convert_time` / `get_filename_time`). -/
def parseCreateTime : CreateTime → Option DTime
  | .parsed d => some d
  | .raw _ => none

/-- Zero-padded two-digit rendering of a field, as `strftime` does. -/
def pad2 (n : Nat) : String :=
  if n < 10 then "0" ++ Nat.repr n else Nat.repr n

/-- Zero-padded four-digit rendering of the year, as `strftime` does. -/
def pad4 (n : Nat) : String :=
  if n < 10 then "000" ++ Nat.repr n
  else if n < 100 then "00" ++ Nat.repr n
  else if n < 1000 then "0" ++ Nat.repr n
  else Nat.repr n

/-- `strftime("%Y-%m-%d %H:%M:%S")`: the display format written into
index rows by `convert_time`. -/
def fmtDisplay (d : DTime) : String :=
  pad4 d.year ++ "-" ++ pad2 d.month ++ "-" ++ pad2 d.day ++ " "
    ++ pad2 d.hour ++ ":" ++ pad2 d.minute ++ ":" ++ pad2 d.second

/-- `strftime("%Y-%m-%d_%H-%M-%S")`: the filename time format used by
`get_filename_time`. -/
def fmtFile (d : DTime) : String :=
  pad4 d.year ++ "-" ++ pad2 d.month ++ "-" ++ pad2 d.day ++ "_"
    ++ pad2 d.hour ++ "-" ++ pad2 d.minute ++ "-" ++ pad2 d.second

/-- `convert_time` (spider.py 67-78): format the parsed timestamp for
display; on parse failure return the raw string unchanged. -/
def convert_time : CreateTime → String
  | .parsed d => fmtDisplay d
  | .raw s => s

/-- `get_filename_time` (spider.py 80-91): format the parsed timestamp
for filenames; on parse failure fall back to `time.strftime` of the
CURRENT wall-clock time, modelled by the explicit `now` argument. -/
def get_filename_time (t : CreateTime) (now : DTime) : String :=
  match t with
  | .parsed d => fmtFile d
  | .raw _ => fmtFile now

/-- The character class `[\\/*?:"<>|]` of `sanitize_filename`. -/
def isIllegalFilenameChar (c : Char) : Bool :=
  c = '\\' || c = '/' || c = '*' || c = '?' || c = ':' || c = '"'
    || c = '<' || c = '>' || c = '|'

/-- `sanitize_filename` (spider.py 93-96): replace each illegal
character with an underscore. -/
def sanitize_filename (s : String) : String :=
  String.mk (s.data.map (fun c => if isIllegalFilenameChar c then '_' else c))

/-- The artifact filename derived in `create_markdown` lines 584-585
(identically in `create_markdown_for_topic` lines 396-397):
`f"{file_time}_{safe_author_name}.md"`. -/
def derived_filename (t : CreateTime) (author_name : String) (now : DTime) : String :=
  get_filename_time t now ++ "_" ++ sanitize_filename author_name ++ ".md"

/-- The fields of a topic that the controller and the index merge
inspect: its `create_time` string, the owner name of its `talk` (or
`question`) payload when one is present, and its `topic_id`. -/
structure Topic where
  create_time : CreateTime
  talk : Option String
  topic_id : String
deriving DecidableEq, Repr

/-- One HTTP attempt inside `get_topics` (spider.py 123-197) as the
controller observes it: `netError` models `requests.get` (or response
JSON decoding) raising; `httpResponse status resp_data` models a
received response, where the outer `Option` is presence of the
`resp_data` key and the inner `Option` is presence of the `topics` key
(an empty `topics` list is represented by `some (some [])`). -/
inductive AttemptOutcome where
  | netError
  | httpResponse (status : Nat) (resp_data : Option (Option (List Topic)))
deriving DecidableEq, Repr

/-- What one attempt of the `get_topics` retry loop yields: the topics
list when the status is 200, `resp_data` is present and `topics` is
present and non-empty (spider.py 132, 146, 160, 172-174); `none` on
every path that retries. -/
def attemptResult (a : AttemptOutcome) : Option (List Topic) :=
  match a with
  | .netError => none
  | .httpResponse status rd =>
    if status = 200 then
      match rd with
      | none => none
      | some ts =>
        match ts with
        | none => none
        | some topics => if topics = [] then none else some topics
    else none

/-- The `while retries <= max_retries` loop of `get_topics`: `fuel`
counts the attempts still allowed, `i` the attempts already made (the
oracle gives attempt `i` its outcome). A failing attempt with no fuel
left returns `none`. -/
def get_topicsLoop (oracle : Nat → AttemptOutcome) : Nat → Nat → Option (List Topic)
  | 0, _ => none
  | fuel + 1, i =>
    match attemptResult (oracle i) with
    | some topics => some topics
    | none => get_topicsLoop oracle fuel (i + 1)

/-- `get_topics` (spider.py 98-200): up to `max_retries` retries beyond
the first attempt, so `max_retries + 1` attempts in total; the network
is the oracle giving each attempt its outcome. -/
def get_topics (oracle : Nat → AttemptOutcome) (max_retries : Nat) : Option (List Topic) :=
  get_topicsLoop oracle (max_retries + 1) 0

/-- Result of a controller run: the accumulated `all_topics` list, the
number of page requests issued, and the successive values assigned to
`end_time` (the cursor trace, oldest assignment last). -/
structure BatchResult where
  all_topics : List Topic
  requests : Nat
  cursors : List CreateTime
deriving DecidableEq, Repr

/-- The per-topic keep decision of the start-time filter (spider.py
271-287): a topic whose `create_time` parses is kept iff it is strictly
newer than `start_datetime`; a topic whose `create_time` fails to parse
is kept unconditionally (the `except` branch appends it). -/
def keepTopic (start_datetime : DTime) (t : Topic) : Bool :=
  match parseCreateTime t.create_time with
  | some d => decide (start_datetime.key < d.key)
  | none => true

/-- The filtered page built by the loop at spider.py 266-287.
`all_too_old` in the source is true exactly when this list is empty,
since every appended topic also clears the flag. -/
def filterPage (start_datetime : DTime) (topics : List Topic) : List Topic :=
  topics.filter (keepTopic start_datetime)

/-- The `for batch in range(batches_needed)` loop of
`get_topics_in_batches` (spider.py 243-307). State: `fuel` = batches
still allowed, `i` = pages already requested, `consecutive_small`, and
the current `end_time` cursor (`none` = parameter omitted). `fetch`
models one `get_topics` call, indexed by the call number and the
cursor it was given; `fetch i c = none` models `get_topics` returning
`None`. Stops: fetch failure or empty page (247), three consecutive
short pages (254-260, checked before filtering, so the third short
page contributes nothing), or a page whose filtered form is empty
(289-292). Otherwise the kept topics are appended, the cursor becomes
the `create_time` of the last topic of the unfiltered page (300-302),
and the loop continues. -/
def batchesLoop (fetch : Nat → Option CreateTime → Option (List Topic))
    (batch_size : Nat) (start_datetime : Option DTime) :
    Nat → Nat → Nat → Option CreateTime → BatchResult
  | 0, i, _, _ => ⟨[], i, []⟩
  | fuel + 1, i, consecutive_small, end_time =>
    match fetch i end_time with
    | none => ⟨[], i + 1, []⟩
    | some [] => ⟨[], i + 1, []⟩
    | some (t0 :: ts0) =>
      let topics := t0 :: ts0
      let csb := if topics.length < batch_size then consecutive_small + 1 else 0
      if 3 ≤ csb then ⟨[], i + 1, []⟩
      else
        let cursor := (topics.getLast (List.cons_ne_nil t0 ts0)).create_time
        match start_datetime with
        | some sd =>
          let filtered := filterPage sd topics
          if filtered = [] then ⟨[], i + 1, []⟩
          else
            let rest := batchesLoop fetch batch_size start_datetime fuel (i + 1) csb (some cursor)
            ⟨filtered ++ rest.all_topics, rest.requests, cursor :: rest.cursors⟩
        | none =>
          let rest := batchesLoop fetch batch_size start_datetime fuel (i + 1) csb (some cursor)
          ⟨topics ++ rest.all_topics, rest.requests, cursor :: rest.cursors⟩

/-- `get_topics_in_batches` (spider.py 202-310): `batches_needed =
total_count // batch_size` pages at most, starting with no cursor.
`start_datetime` is the already-parsed start bound (the source parses
the `start_time` string at 218-239; an unparseable string leaves
`start_datetime = None`, i.e. fetch everything). -/
def get_topics_in_batches (fetch : Nat → Option CreateTime → Option (List Topic))
    (total_count batch_size : Nat) (start_datetime : Option DTime) : BatchResult :=
  batchesLoop fetch batch_size start_datetime (total_count / batch_size) 0 0 none

/-- A parsed data row of `index.md` as `create_markdown` stores it
(spider.py 556, 597): display time, author name, topic id, and the
derived filename that serves as identity. -/
structure IndexEntry where
  create_time : String
  author_name : String
  topic_id : String
  filename : String
deriving DecidableEq, Repr

/-- Lexicographic comparison of character lists by code point: the
model of Python string comparison, used by `all_entries.sort(...,
key=lambda x: x[0])`. -/
def chLe : List Char → List Char → Bool
  | [], _ => true
  | _ :: _, [] => false
  | x :: xs, y :: ys =>
    if x.toNat < y.toNat then true
    else if y.toNat < x.toNat then false
    else chLe xs ys

/-- Descending comparison on the display-time field: `a` may precede
`b` iff `b.create_time ≤ a.create_time` as Python strings. This is the
order produced by `all_entries.sort(reverse=True, key=lambda x: x[0])`
(spider.py 614). -/
def entryLe (a b : IndexEntry) : Bool :=
  chLe b.create_time.data a.create_time.data

/-- `entryLe` as a relation, for the sort below. -/
def entryRel (a b : IndexEntry) : Prop :=
  entryLe a b = true

instance : DecidableRel entryRel :=
  fun a b => inferInstanceAs (Decidable (entryLe a b = true))

/-- The descending sort of spider.py 614. CPython list.sort is a
stable sort and `reverse=True` keeps ties in list order; a stable
insertion sort by the same total preorder computes the same list. -/
def sortEntriesDesc (l : List IndexEntry) : List IndexEntry :=
  List.insertionSort entryRel l

/-- The index entry a topic contributes (spider.py 563-597): skipped
entirely when the topic has neither `talk` nor `question` payload;
otherwise the display time, the raw author name, the topic id and the
derived filename. -/
def deriveEntry (now : DTime) (t : Topic) : Option IndexEntry :=
  match t.talk with
  | none => none
  | some author_name =>
    some ⟨convert_time t.create_time, author_name, t.topic_id,
      derived_filename t.create_time author_name now⟩

/-- The `new_entries` list built by the loop at spider.py 563-603: one
entry per topic with a payload whose derived filename is not already in
`existing` (the filename set parsed from the current index file); in
the model the per-topic markdown write always succeeds. -/
def new_entriesOf (now : DTime) (existing : List String) (topics : List Topic) :
    List IndexEntry :=
  topics.filterMap (fun t =>
    match deriveEntry now t with
    | none => none
    | some e => if existing.contains e.filename then none else some e)

/-- The index-merge performed by `create_markdown` (spider.py 500-627),
with the index file abstracted to its parsed entries: compute the new
entries against the existing filenames; if there are none, return
`none` (the file is not rewritten, spider.py 609-611); otherwise the
file is rewritten as existing plus new entries sorted descending by
display time (spider.py 605-625). -/
def create_markdown (now : DTime) (existing_entries_data : List IndexEntry)
    (topics : List Topic) : Option (List IndexEntry) :=
  let new_entries :=
    new_entriesOf now (existing_entries_data.map (fun e => e.filename)) topics
  if new_entries = [] then none
  else some (sortEntriesDesc (existing_entries_data ++ new_entries))

/-- ASCII whitespace stripped by Python `str.strip()` (the strings this
model builds contain no other whitespace code points). -/
def isPyWS (c : Char) : Bool :=
  c = ' ' || c = '\t' || c = '\n' || c = '\x0d' || c = '\x0b' || c = '\x0c'

/-- Drop leading Python whitespace from a character list. -/
def dropWS : List Char → List Char
  | [] => []
  | c :: rest => if isPyWS c then dropWS rest else c :: rest

/-- Python `str.strip()` over a character list: drop leading and
trailing whitespace (spider.py 544 applies it to each cell). -/
def pyStrip (l : List Char) : List Char :=
  (dropWS (dropWS l).reverse).reverse

/-- Python `str.split(sep)` for a single-character separator: all
pieces, empties kept (`"".split(s) = [""]`). Used for the `split('|')`,
`split('(')` and `split(')')` of spider.py 544 and 552. -/
def splitChars (sep : Char) : List Char → List (List Char)
  | [] => [[]]
  | c :: rest =>
    match splitChars sep rest with
    | [] => [[]]
    | h :: t => if c = sep then [] :: h :: t else (c :: h) :: t

/-- Whether `pat` is a prefix of the text, by code point. -/
def startsWithCL : List Char → List Char → Bool
  | [], _ => true
  | _ :: _, [] => false
  | p :: ps, c :: cs => p = c && startsWithCL ps cs

/-- Python substring membership `pat in text`. -/
def containsSub (pat : List Char) : List Char → Bool
  | [] => startsWithCL pat []
  | c :: rest => startsWithCL pat (c :: rest) || containsSub pat rest

/-- The table-header marker of spider.py 535. -/
def headerRowPat : List Char := "| 发布时间 |".data

/-- The separator-row marker of spider.py 538. -/
def sepRowPat : List Char := "|---------|".data

/-- The `.md` marker of spider.py 542. -/
def mdPat : List Char := ".md".data

/-- The data row `create_markdown` writes for an entry (spider.py 625):
`| {create_time} | {author_name} | {topic_id} | [{filename}]({filename}) |`. -/
def rowLine (e : IndexEntry) : String :=
  "| " ++ e.create_time ++ " | " ++ e.author_name ++ " | " ++ e.topic_id
    ++ " | [" ++ e.filename ++ "](" ++ e.filename ++ ") |"

/-- The per-line parse of the existing-index reader (spider.py
533-558), for a line at or after the header row (`table_started` is
true from the header row on, and the fixed header lines written at
618-620 precede every data row). A line holding the header or
separator marker is skipped; a data line must hold `|` and `.md`; the
cells are the `split('|')`-pieces stripped; with at least 5 pieces the
entry is cells 1-3 plus the text of cell 4 between the first `(` and
the next `)` (`split('(')[1].split(')')[0]`); a cell 4 with no `(`
raises and the row is skipped (545-558). -/
def parseIndexRow (line : String) : Option IndexEntry :=
  if containsSub headerRowPat line.data then none
  else if containsSub sepRowPat line.data then none
  else if line.data.contains '|' && containsSub mdPat line.data then
    let parts := (splitChars '|' line.data).map pyStrip
    if 5 ≤ parts.length then
      match splitChars '(' (parts.getD 4 []) with
      | _ :: second :: _ =>
        match splitChars ')' second with
        | f :: _ =>
          some ⟨String.mk (parts.getD 1 []), String.mk (parts.getD 2 []),
            String.mk (parts.getD 3 []), String.mk f⟩
        | [] => none
      | _ => none
    else none
  else none

/-- The existing entries the SECOND run parses from the index file left
by a first `create_markdown` run: if the first run wrote nothing the
file is unchanged, so re-reading it parses to the same entries `E` the
first run saw; if it rewrote the file, the second run re-parses each
serialized data row (the written header lines hold no `.md` and only
set `table_started`, so the parsed entries are exactly the data rows
surviving `parseIndexRow`). -/
def second_run_existing (now : DTime) (E : List IndexEntry)
    (topics : List Topic) : List IndexEntry :=
  match create_markdown now E topics with
  | none => E
  | some out => out.filterMap (fun e => parseIndexRow (rowLine e))

/-- Strict decrease of cursor instants: both cursors parse and the
first denotes a strictly earlier instant than the second. -/
def cursorLt (a b : CreateTime) : Prop :=
  ∃ da db, parseCreateTime a = some da ∧ parseCreateTime b = some db ∧ da.key < db.key

/-- Concrete datetime fixture (2024-05-01 12:00:00). -/
def dtA : DTime := ⟨2024, 5, 1, 12, 0, 0⟩

/-- Concrete datetime fixture (2024-01-01 00:00:00), earlier than
`dtA`. -/
def dtB : DTime := ⟨2024, 1, 1, 0, 0, 0⟩

/-- Concrete datetime fixture (2023-06-15 08:30:00), earlier than
`dtB`. -/
def dtC : DTime := ⟨2023, 6, 15, 8, 30, 0⟩

/-- A topic with a parseable creation timestamp `dtA`. -/
def goodTopic : Topic := ⟨.parsed dtA, some "alice", "t1"⟩

/-- A topic whose creation timestamp fails to parse. -/
def badTopic : Topic := ⟨.raw "", some "bob", "t9"⟩

/-- A topic with parseable creation timestamp `dtC` (older than `dtB`
and `dtA`). -/
def oldTopic : Topic := ⟨.parsed dtC, some "carol", "t3"⟩

/-- A topic with an unparseable timestamp and a payload, used to
exercise the wall-clock filename fallback. -/
def tRaw : Topic := ⟨.raw "x", some "bob", "t1"⟩

/-- A concrete pre-existing index entry. -/
def eE1 : IndexEntry := ⟨"2024-01-01 00:00:00", "a", "t1", "f1.md"⟩

/-- The index entry derived from `goodTopic` with any wall clock. -/
def newE2 : IndexEntry :=
  ⟨"2024-05-01 12:00:00", "alice", "t1", "2024-05-01_12-00-00_alice.md"⟩

/-- Page oracle returning one page holding only `badTopic`. -/
def fetchC1 : Nat → Option CreateTime → Option (List Topic) :=
  fun i _ => if i = 0 then some [badTopic] else none

/-- Page oracle returning one page holding only `goodTopic`. -/
def fetchW1 : Nat → Option CreateTime → Option (List Topic) :=
  fun i _ => if i = 0 then some [goodTopic] else none

/-- Page oracle with page sizes 20, 20, 5, 5, 5, 20, 20, ... . -/
def fetchC3 : Nat → Option CreateTime → Option (List Topic) :=
  fun i _ =>
    if i < 2 then some (List.replicate 20 goodTopic)
    else if i < 5 then some (List.replicate 5 goodTopic)
    else some (List.replicate 20 goodTopic)

/-- Page oracle whose every page holds only `oldTopic`. -/
def fetchW4 : Nat → Option CreateTime → Option (List Topic) :=
  fun _ _ => some [oldTopic]

/-- Page oracle answering only the first, cursor-less request, with a
single-topic page. -/
def fetchW5 : Nat → Option CreateTime → Option (List Topic) :=
  fun i c =>
    match i, c with
    | 0, none => some [goodTopic]
    | _, _ => none

/-- Page oracle returning a full page of 20 topics whose first element
is `badTopic` (unparseable timestamp). -/
def fetchW10 : Nat → Option CreateTime → Option (List Topic) :=
  fun _ _ => some (badTopic :: List.replicate 19 goodTopic)

/-- Attempt oracle: network error first, then a successful response. -/
def oW6 : Nat → AttemptOutcome :=
  fun i => if i = 0 then .netError else .httpResponse 200 (some (some [goodTopic]))

/-- Attempt oracle agreeing with `oW6` on attempts 0..5 and differing
at attempt 7 (beyond the retry budget of 5). -/
def oW6b : Nat → AttemptOutcome :=
  fun i => if i = 7 then .netError else oW6 i

theorem le_requests_batchesLoop (fetch : Nat → Option CreateTime → Option (List Topic))
    (bs : Nat) (sd : Option DTime) :
    ∀ fuel i csb et, i ≤ (batchesLoop fetch bs sd fuel i csb et).requests := by
  intro fuel
  induction fuel with
  | zero => intro i csb et; exact Nat.le_refl i
  | succ n ih =>
    intro i csb et
    simp only [batchesLoop]
    cases hf : fetch i et with
    | none => exact Nat.le_succ i
    | some l =>
      cases l with
      | nil => exact Nat.le_succ i
      | cons t0 ts0 =>
        simp only
        by_cases h3 : 3 ≤ (if (t0 :: ts0).length < bs then csb + 1 else 0)
        · simp only [if_pos h3]
          exact Nat.le_succ i
        · simp only [if_neg h3]
          cases sd with
          | none => exact Nat.le_trans (Nat.le_succ i) (ih (i + 1) _ _)
          | some B =>
            by_cases hk : filterPage B (t0 :: ts0) = []
            · simp only [if_pos hk]
              exact Nat.le_succ i
            · simp only [if_neg hk]
              exact Nat.le_trans (Nat.le_succ i) (ih (i + 1) _ _)

theorem succ_le_requests_batchesLoop (fetch : Nat → Option CreateTime → Option (List Topic))
    (bs : Nat) (sd : Option DTime) (fuel i csb : Nat) (et : Option CreateTime)
    (hfuel : 1 ≤ fuel) :
    i + 1 ≤ (batchesLoop fetch bs sd fuel i csb et).requests := by
  cases fuel with
  | zero => omega
  | succ n =>
    simp only [batchesLoop]
    cases hf : fetch i et with
    | none => exact Nat.le_refl _
    | some l =>
      cases l with
      | nil => exact Nat.le_refl _
      | cons t0 ts0 =>
        simp only
        by_cases h3 : 3 ≤ (if (t0 :: ts0).length < bs then csb + 1 else 0)
        · simp only [if_pos h3]; exact Nat.le_refl _
        · simp only [if_neg h3]
          cases sd with
          | none => exact le_requests_batchesLoop fetch bs none n (i + 1) _ _
          | some B =>
            by_cases hk : filterPage B (t0 :: ts0) = []
            · simp only [if_pos hk]; exact Nat.le_refl _
            · simp only [if_neg hk]
              exact le_requests_batchesLoop fetch bs (some B) n (i + 1) _ _

theorem requests_le_batchesLoop (fetch : Nat → Option CreateTime → Option (List Topic))
    (bs : Nat) (sd : Option DTime) :
    ∀ fuel i csb et, (batchesLoop fetch bs sd fuel i csb et).requests ≤ i + fuel := by
  intro fuel
  induction fuel with
  | zero => intro i csb et; exact Nat.le_refl i
  | succ n ih =>
    intro i csb et
    have hstep : ∀ j, j + 1 ≤ j + (n + 1) := by omega
    have hrec : ∀ csb2 et2, (batchesLoop fetch bs sd n (i + 1) csb2 et2).requests ≤ i + (n + 1) := by
      intro csb2 et2
      exact Nat.le_trans (ih (i + 1) csb2 et2) (Nat.le_of_eq (by omega))
    simp only [batchesLoop]
    cases hf : fetch i et with
    | none => exact hstep i
    | some l =>
      cases l with
      | nil => exact hstep i
      | cons t0 ts0 =>
        simp only
        by_cases h3 : 3 ≤ (if (t0 :: ts0).length < bs then csb + 1 else 0)
        · simp only [if_pos h3]; exact hstep i
        · simp only [if_neg h3]
          cases sd with
          | none => exact hrec _ _
          | some B =>
            by_cases hk : filterPage B (t0 :: ts0) = []
            · simp only [if_pos hk]; exact hstep i
            · simp only [if_neg hk]; exact hrec _ _

theorem keepTopic_of_mem_batchesLoop (fetch : Nat → Option CreateTime → Option (List Topic))
    (bs : Nat) (B : DTime) :
    ∀ fuel i csb et t, t ∈ (batchesLoop fetch bs (some B) fuel i csb et).all_topics →
      keepTopic B t = true := by
  intro fuel
  induction fuel with
  | zero => intro i csb et t ht; simp [batchesLoop] at ht
  | succ n ih =>
    intro i csb et t ht
    cases hf : fetch i et with
    | none => simp [batchesLoop, hf] at ht
    | some l =>
      cases l with
      | nil => simp [batchesLoop, hf] at ht
      | cons t0 ts0 =>
        simp only [batchesLoop, hf] at ht
        by_cases h3 : 3 ≤ (if (t0 :: ts0).length < bs then csb + 1 else 0)
        · rw [if_pos h3] at ht; simp at ht
        · rw [if_neg h3] at ht
          by_cases hk : filterPage B (t0 :: ts0) = []
          · rw [if_pos hk] at ht; simp at ht
          · rw [if_neg hk] at ht
            simp only [List.mem_append] at ht
            rcases ht with hin | hin
            · exact (List.mem_filter.mp hin).2
            · exact ih (i + 1) _ _ t hin

theorem requests_batchesLoop_cont_none (fetch : Nat → Option CreateTime → Option (List Topic))
    (bs fuel i csb : Nat) (et : Option CreateTime) (t0 : Topic) (ts0 : List Topic)
    (hf : fetch i et = some (t0 :: ts0))
    (h3 : ¬ 3 ≤ (if (t0 :: ts0).length < bs then csb + 1 else 0)) :
    (batchesLoop fetch bs none (fuel + 1) i csb et).requests =
      (batchesLoop fetch bs none fuel (i + 1)
        (if (t0 :: ts0).length < bs then csb + 1 else 0)
        (some ((t0 :: ts0).getLast (List.cons_ne_nil t0 ts0)).create_time)).requests := by
  simp only [batchesLoop, hf]
  rw [if_neg h3]

theorem requests_batchesLoop_stop_short (fetch : Nat → Option CreateTime → Option (List Topic))
    (bs fuel i csb : Nat) (et : Option CreateTime) (t0 : Topic) (ts0 : List Topic)
    (hf : fetch i et = some (t0 :: ts0))
    (h3 : 3 ≤ (if (t0 :: ts0).length < bs then csb + 1 else 0)) :
    (batchesLoop fetch bs none (fuel + 1) i csb et).requests = i + 1 := by
  simp only [batchesLoop, hf]
  rw [if_pos h3]

/-- C3: the controller counts consecutive short pages (reset on full
pages) and stops at the third; with page sizes 20, 20, 5, 5, 5 and
`batch_size = 20` it requests exactly 5 pages and never a 6th. -/
theorem c3_three_consecutive_short_pages (fetch : Nat → Option CreateTime → Option (List Topic))
    (p0 p1 p2 p3 p4 : List Topic)
    (h0 : ∀ c, fetch 0 c = some p0) (h1 : ∀ c, fetch 1 c = some p1)
    (h2 : ∀ c, fetch 2 c = some p2) (h3 : ∀ c, fetch 3 c = some p3)
    (h4 : ∀ c, fetch 4 c = some p4)
    (hl0 : p0.length = 20) (hl1 : p1.length = 20) (hl2 : p2.length = 5)
    (hl3 : p3.length = 5) (hl4 : p4.length = 5) :
    (get_topics_in_batches fetch 200 20 none).requests = 5 := by
  obtain ⟨a0, q0, rfl⟩ : ∃ a q, p0 = a :: q := by
    cases p0 with
    | nil => simp at hl0
    | cons a q => exact ⟨a, q, rfl⟩
  obtain ⟨a1, q1, rfl⟩ : ∃ a q, p1 = a :: q := by
    cases p1 with
    | nil => simp at hl1
    | cons a q => exact ⟨a, q, rfl⟩
  obtain ⟨a2, q2, rfl⟩ : ∃ a q, p2 = a :: q := by
    cases p2 with
    | nil => simp at hl2
    | cons a q => exact ⟨a, q, rfl⟩
  obtain ⟨a3, q3, rfl⟩ : ∃ a q, p3 = a :: q := by
    cases p3 with
    | nil => simp at hl3
    | cons a q => exact ⟨a, q, rfl⟩
  obtain ⟨a4, q4, rfl⟩ : ∃ a q, p4 = a :: q := by
    cases p4 with
    | nil => simp at hl4
    | cons a q => exact ⟨a, q, rfl⟩
  have hdiv : (200 : Nat) / 20 = 10 := by norm_num
  rw [get_topics_in_batches, hdiv]
  rw [requests_batchesLoop_cont_none fetch 20 9 0 0 none a0 q0 (h0 none) (by simp [hl0])]
  rw [if_neg (by rw [hl0]; omega : ¬ (a0 :: q0).length < 20)]
  rw [requests_batchesLoop_cont_none fetch 20 8 1 0 _ a1 q1 (h1 _) (by simp [hl1])]
  rw [if_neg (by rw [hl1]; omega : ¬ (a1 :: q1).length < 20)]
  rw [requests_batchesLoop_cont_none fetch 20 7 2 0 _ a2 q2 (h2 _) (by simp [hl2])]
  rw [if_pos (by rw [hl2]; omega : (a2 :: q2).length < 20)]
  rw [requests_batchesLoop_cont_none fetch 20 6 3 1 _ a3 q3 (h3 _) (by simp [hl3])]
  rw [if_pos (by rw [hl3]; omega : (a3 :: q3).length < 20)]
  rw [requests_batchesLoop_stop_short fetch 20 5 4 2 _ a4 q4 (h4 _) (by simp [hl4])]

theorem c3_witness : (get_topics_in_batches fetchC3 200 20 none).requests = 5 :=
  c3_three_consecutive_short_pages fetchC3
    (List.replicate 20 goodTopic) (List.replicate 20 goodTopic)
    (List.replicate 5 goodTopic) (List.replicate 5 goodTopic) (List.replicate 5 goodTopic)
    (fun _ => rfl) (fun _ => rfl) (fun _ => rfl) (fun _ => rfl) (fun _ => rfl)
    (by decide) (by decide) (by decide) (by decide) (by decide)

/-- C1 counterexample: with start bound `dtB`, a page whose only record
has an unparseable `create_time` is kept, so not every kept record has
a (parseable) creation time strictly greater than the bound. -/
theorem c1_counterexample :
    ¬ ∀ t ∈ (get_topics_in_batches fetchC1 20 20 (some dtB)).all_topics,
        ∃ d, parseCreateTime t.create_time = some d ∧ dtB.key < d.key := by
  intro h
  have hmem : badTopic ∈ (get_topics_in_batches fetchC1 20 20 (some dtB)).all_topics := by
    decide
  obtain ⟨d, hd, _⟩ := h badTopic hmem
  exact Option.noConfusion hd

/-- C1 (amended): every record kept by a run with start bound `B` whose
creation timestamp parses is strictly newer than `B`; records with
unparseable timestamps are kept regardless of the bound. -/
theorem c1_kept_records_newer_than_bound
    (fetch : Nat → Option CreateTime → Option (List Topic))
    (total_count batch_size : Nat) (B : DTime) (t : Topic) (d : DTime)
    (ht : t ∈ (get_topics_in_batches fetch total_count batch_size (some B)).all_topics)
    (hd : parseCreateTime t.create_time = some d) :
    B.key < d.key := by
  have hk := keepTopic_of_mem_batchesLoop fetch batch_size B
    (total_count / batch_size) 0 0 none t ht
  simp only [keepTopic, hd] at hk
  exact of_decide_eq_true hk

theorem c1_witness : dtB.key < dtA.key :=
  c1_kept_records_newer_than_bound fetchW1 20 20 dtB goodTopic dtA (by decide) rfl

/-- C4: a fetched non-empty page in which every record parses and is
not strictly newer than the start bound makes the controller stop:
this page is its last request and from it (and onward) nothing is
added and no cursor is recorded. -/
theorem c4_all_old_page_stops (fetch : Nat → Option CreateTime → Option (List Topic))
    (bs : Nat) (B : DTime) (fuel i csb : Nat) (et : Option CreateTime) (l : List Topic)
    (hf : fetch i et = some l) (hne : l ≠ [])
    (hold : ∀ t ∈ l, ∃ d, parseCreateTime t.create_time = some d ∧ d.key ≤ B.key) :
    batchesLoop fetch bs (some B) (fuel + 1) i csb et = ⟨[], i + 1, []⟩ := by
  have hfil : filterPage B l = [] := by
    rw [filterPage, List.filter_eq_nil_iff]
    intro t ht
    obtain ⟨d, hd, hle⟩ := hold t ht
    simp only [keepTopic, hd, decide_eq_true_eq]
    omega
  cases l with
  | nil => exact absurd rfl hne
  | cons t0 ts0 =>
    simp only [batchesLoop, hf]
    by_cases h3 : 3 ≤ (if (t0 :: ts0).length < bs then csb + 1 else 0)
    · rw [if_pos h3]
    · rw [if_neg h3, if_pos hfil]

theorem c4_witness : batchesLoop fetchW4 20 (some dtB) 1 0 0 none = ⟨[], 1, []⟩ :=
  c4_all_old_page_stops fetchW4 20 dtB 0 0 0 none [oldTopic] rfl (by decide)
    (by
      intro t ht
      rw [List.mem_singleton] at ht
      subst ht
      exact ⟨dtC, rfl, by decide⟩)

/-- C8: the number of page requests is bounded by
`total_count / batch_size`, a budget fixed before the first request;
a zero budget yields an empty result with no request at all. -/
theorem c8_iteration_budget (fetch : Nat → Option CreateTime → Option (List Topic))
    (total_count batch_size : Nat) (sd : Option DTime) (hb : 0 < batch_size) :
    (get_topics_in_batches fetch total_count batch_size sd).requests ≤
      total_count / batch_size
    ∧ (total_count / batch_size = 0 →
        get_topics_in_batches fetch total_count batch_size sd = ⟨[], 0, []⟩) := by
  constructor
  · have := requests_le_batchesLoop fetch batch_size sd (total_count / batch_size) 0 0 none
    rw [get_topics_in_batches]
    omega
  · intro h
    rw [get_topics_in_batches, h]
    rfl

theorem c8_witness :
    (get_topics_in_batches fetchW4 10 20 none).requests ≤ 10 / 20
    ∧ (10 / 20 = 0 → get_topics_in_batches fetchW4 10 20 none = ⟨[], 0, []⟩) :=
  c8_iteration_budget fetchW4 10 20 none (by decide)

/-- C9 counterexample: for an unparseable creation-timestamp string the
derived filename depends on the wall clock (`get_filename_time` falls
back to the current time), so the same (timestamp, author) pair yields
different filenames on invocations at different times. -/
theorem c9_counterexample :
    derived_filename (.raw "oops") "bob" dtA ≠ derived_filename (.raw "oops") "bob" dtB := by
  decide

/-- C9 (amended): for a creation-timestamp string that parses, the
derived filename does not depend on the invocation time: it is a
function of the timestamp and the author name alone. -/
theorem c9_filename_pure_on_parseable (d : DTime) (author_name : String) (n1 n2 : DTime) :
    derived_filename (.parsed d) author_name n1 = derived_filename (.parsed d) author_name n2 :=
  rfl

/-- C10: a record whose creation-timestamp string fails to parse is
kept by the start-bound filter regardless of the bound, its presence
makes the filtered page non-empty (preventing the end-of-window stop),
and a full page containing such a record does not end the iteration:
at least one further page request follows when budget remains. -/
theorem c10_unparseable_record_kept (fetch : Nat → Option CreateTime → Option (List Topic))
    (bs fuel i csb : Nat) (et : Option CreateTime) (B : DTime) (l : List Topic) (t : Topic)
    (hmem : t ∈ l) (hraw : parseCreateTime t.create_time = none)
    (hf : fetch i et = some l) (hfull : l.length = bs) (hb : 0 < bs) :
    t ∈ filterPage B l ∧ filterPage B l ≠ []
    ∧ i + 2 ≤ (batchesLoop fetch bs (some B) (fuel + 2) i csb et).requests := by
  have hkeep : keepTopic B t = true := by
    simp only [keepTopic, hraw]
  have h1 : t ∈ filterPage B l := List.mem_filter.mpr ⟨hmem, hkeep⟩
  have h2 : filterPage B l ≠ [] := List.ne_nil_of_mem h1
  refine ⟨h1, h2, ?_⟩
  cases l with
  | nil => exact absurd rfl (List.ne_nil_of_mem hmem)
  | cons t0 ts0 =>
    simp only [batchesLoop, hf]
    have hnotshort : ¬ (t0 :: ts0).length < bs := by omega
    rw [if_neg hnotshort]
    rw [if_neg (by decide : ¬ (3 : Nat) ≤ 0)]
    rw [if_neg h2]
    exact succ_le_requests_batchesLoop fetch bs (some B) (fuel + 1) (i + 1) 0 _ (by omega)

theorem c10_witness :
    badTopic ∈ filterPage dtA (badTopic :: List.replicate 19 goodTopic)
    ∧ filterPage dtA (badTopic :: List.replicate 19 goodTopic) ≠ []
    ∧ 2 ≤ (batchesLoop fetchW10 20 (some dtA) 2 0 0 none).requests :=
  c10_unparseable_record_kept fetchW10 20 0 0 0 none dtA
    (badTopic :: List.replicate 19 goodTopic) badTopic (by decide) rfl rfl (by decide)
    (by decide)

theorem cursors_chain_batchesLoop (fetch : Nat → Option CreateTime → Option (List Topic))
    (bs : Nat)
    (H : ∀ i c l, fetch i (some c) = some l → ∀ t ∈ l,
        ∃ dt dc, parseCreateTime t.create_time = some dt ∧ parseCreateTime c = some dc
          ∧ dt.key < dc.key) :
    ∀ fuel i csb et,
      List.Chain' (fun a b => cursorLt b a)
        (batchesLoop fetch bs none fuel i csb et).cursors
      ∧ ∀ c x, et = some c →
          ((batchesLoop fetch bs none fuel i csb et).cursors).head? = some x →
            cursorLt x c := by
  intro fuel
  induction fuel with
  | zero =>
    intro i csb et
    exact ⟨by simp [batchesLoop], by intro c x _ hx; simp [batchesLoop] at hx⟩
  | succ n ih =>
    intro i csb et
    cases hf : fetch i et with
    | none =>
      exact ⟨by simp [batchesLoop, hf], by intro c x _ hx; simp [batchesLoop, hf] at hx⟩
    | some l =>
      cases l with
      | nil =>
        exact ⟨by simp [batchesLoop, hf], by intro c x _ hx; simp [batchesLoop, hf] at hx⟩
      | cons t0 ts0 =>
        by_cases h3 : 3 ≤ (if (t0 :: ts0).length < bs then csb + 1 else 0)
        · constructor
          · simp only [batchesLoop, hf]
            rw [if_pos h3]
            exact List.chain'_nil
          · intro c x _ hx
            simp only [batchesLoop, hf] at hx
            rw [if_pos h3] at hx
            simp at hx
        · obtain ⟨ihc, ihh⟩ := ih (i + 1) (if (t0 :: ts0).length < bs then csb + 1 else 0)
            (some ((t0 :: ts0).getLast (List.cons_ne_nil t0 ts0)).create_time)
          have hchain :
              List.Chain' (fun a b => cursorLt b a)
                (((t0 :: ts0).getLast (List.cons_ne_nil t0 ts0)).create_time ::
                  (batchesLoop fetch bs none n (i + 1)
                    (if (t0 :: ts0).length < bs then csb + 1 else 0)
                    (some ((t0 :: ts0).getLast (List.cons_ne_nil t0 ts0)).create_time)).cursors) := by
            rw [List.chain'_cons']
            refine ⟨?_, ihc⟩
            intro y hy
            exact ihh _ y rfl (Option.mem_def.mp hy)
          constructor
          · simp only [batchesLoop, hf]
            rw [if_neg h3]
            exact hchain
          · intro c x het hx
            subst het
            simp only [batchesLoop, hf] at hx
            rw [if_neg h3] at hx
            simp only [List.head?_cons, Option.some.injEq] at hx
            subst hx
            obtain ⟨dt, dc, hdt, hdc, hlt⟩ :=
              H i c (t0 :: ts0) hf ((t0 :: ts0).getLast (List.cons_ne_nil t0 ts0))
                (List.getLast_mem (List.cons_ne_nil t0 ts0))
            exact ⟨dt, dc, hdt, hdc, hlt⟩

/-- C5: after each non-stopping iteration the cursor is set to the
creation timestamp of the LAST record of the unfiltered page,
regardless of what the start-bound filter kept (first conjunct); and
when every fetched record is strictly older than the cursor that
requested it, the successive cursors of a run without filtering are
strictly decreasing in time (second conjunct). -/
theorem c5_cursor_monotone (fetch : Nat → Option CreateTime → Option (List Topic))
    (bs total_count : Nat) :
    (∀ (B : DTime) (fuel i csb : Nat) (et : Option CreateTime) (t0 : Topic)
        (ts0 : List Topic),
      fetch i et = some (t0 :: ts0) →
      ¬ 3 ≤ (if (t0 :: ts0).length < bs then csb + 1 else 0) →
      filterPage B (t0 :: ts0) ≠ [] →
      ((batchesLoop fetch bs (some B) (fuel + 1) i csb et).cursors).head? =
        some (((t0 :: ts0).getLast (List.cons_ne_nil t0 ts0)).create_time))
    ∧ ((∀ i c l, fetch i (some c) = some l → ∀ t ∈ l,
          ∃ dt dc, parseCreateTime t.create_time = some dt
            ∧ parseCreateTime c = some dc ∧ dt.key < dc.key) →
        List.Chain' (fun a b => cursorLt b a)
          (get_topics_in_batches fetch total_count bs none).cursors) := by
  constructor
  · intro B fuel i csb et t0 ts0 hf h3 hkept
    simp only [batchesLoop, hf]
    rw [if_neg h3, if_neg hkept]
    rfl
  · intro H
    exact (cursors_chain_batchesLoop fetch bs H (total_count / bs) 0 0 none).1

theorem c5_witness :
    ((batchesLoop fetchW5 20 (some dtB) 1 0 0 none).cursors).head? =
      some (CreateTime.parsed dtA)
    ∧ List.Chain' (fun a b => cursorLt b a)
        (get_topics_in_batches fetchW5 40 20 none).cursors := by
  have h := c5_cursor_monotone fetchW5 20 40
  constructor
  · exact h.1 dtB 0 0 0 none goodTopic [] rfl (by decide) (by decide)
  · refine h.2 ?_
    intro i c l hf
    cases i with
    | zero => simp [fetchW5] at hf
    | succ k => simp [fetchW5] at hf

theorem attemptResult_ne_nil (a : AttemptOutcome) (ts : List Topic)
    (h : attemptResult a = some ts) : ts ≠ [] := by
  cases a with
  | netError => exact Option.noConfusion h
  | httpResponse status rd =>
    simp only [attemptResult] at h
    by_cases hs : status = 200
    · rw [if_pos hs] at h
      cases rd with
      | none => exact Option.noConfusion h
      | some ts2 =>
        cases ts2 with
        | none => exact Option.noConfusion h
        | some topics =>
          dsimp only at h
          by_cases he : topics = []
          · rw [if_pos he] at h
            exact Option.noConfusion h
          · rw [if_neg he] at h
            injection h with h2
            exact h2 ▸ he
    · rw [if_neg hs] at h
      exact Option.noConfusion h

theorem get_topicsLoop_none_iff (oracle : Nat → AttemptOutcome) :
    ∀ fuel i, get_topicsLoop oracle fuel i = none ↔
      ∀ k, k < fuel → attemptResult (oracle (i + k)) = none := by
  intro fuel
  induction fuel with
  | zero =>
    intro i
    simp [get_topicsLoop]
  | succ n ih =>
    intro i
    simp only [get_topicsLoop]
    cases ha : attemptResult (oracle i) with
    | some ts =>
      constructor
      · intro h
        exact absurd h (by simp)
      · intro h
        exfalso
        have h0 := h 0 (by omega)
        rw [Nat.add_zero] at h0
        rw [ha] at h0
        exact Option.noConfusion h0
    | none =>
      rw [ih (i + 1)]
      constructor
      · intro h k hk
        cases k with
        | zero =>
          rw [Nat.add_zero]
          exact ha
        | succ m =>
          have hm := h m (by omega)
          have h2 : i + 1 + m = i + (m + 1) := by omega
          rw [h2] at hm
          exact hm
      · intro h m hm
        have hmm := h (m + 1) (by omega)
        have h2 : i + (m + 1) = i + 1 + m := by omega
        rw [h2] at hmm
        exact hmm

theorem get_topicsLoop_some_first (oracle : Nat → AttemptOutcome) :
    ∀ fuel i ts, get_topicsLoop oracle fuel i = some ts →
      ∃ k, k < fuel ∧ attemptResult (oracle (i + k)) = some ts
        ∧ ∀ j, j < k → attemptResult (oracle (i + j)) = none := by
  intro fuel
  induction fuel with
  | zero =>
    intro i ts h
    exact Option.noConfusion h
  | succ n ih =>
    intro i ts h
    simp only [get_topicsLoop] at h
    cases ha : attemptResult (oracle i) with
    | some ts2 =>
      rw [ha] at h
      simp only [Option.some.injEq] at h
      refine ⟨0, by omega, ?_, ?_⟩
      · rw [Nat.add_zero, ha, h]
      · intro j hj
        exact absurd hj (Nat.not_lt_zero j)
    | none =>
      rw [ha] at h
      obtain ⟨k, hk, hres, hmin⟩ := ih (i + 1) ts h
      refine ⟨k + 1, by omega, ?_, ?_⟩
      · have h2 : i + (k + 1) = i + 1 + k := by omega
        rw [h2]
        exact hres
      · intro j hj
        cases j with
        | zero =>
          rw [Nat.add_zero]
          exact ha
        | succ m =>
          have hm := hmin m (by omega)
          have h2 : i + (m + 1) = i + 1 + m := by omega
          rw [h2]
          exact hm

theorem get_topicsLoop_congr (o1 o2 : Nat → AttemptOutcome) :
    ∀ fuel i, (∀ k, k < fuel → o1 (i + k) = o2 (i + k)) →
      get_topicsLoop o1 fuel i = get_topicsLoop o2 fuel i := by
  intro fuel
  induction fuel with
  | zero =>
    intro i h
    rfl
  | succ n ih =>
    intro i h
    have h0 := h 0 (by omega)
    rw [Nat.add_zero] at h0
    simp only [get_topicsLoop, h0]
    cases attemptResult (o2 i) with
    | some ts => rfl
    | none =>
      exact ih (i + 1) (fun k hk => by
        have hm := h (k + 1) (by omega)
        have h2 : i + (k + 1) = i + 1 + k := by omega
        rw [h2] at hm
        exact hm)

/-- C6: `get_topics` makes at most `max_retries + 1` attempts (its
result depends only on the outcomes of attempts `0..max_retries`),
returns the topics list of the first attempt that yields status 200
with the `resp_data` envelope and a non-empty `topics` field (so a
successful result is never the empty list), and returns `None` exactly
when all `max_retries + 1` attempts fail. -/
theorem c6_page_fetcher_retry_contract (max_retries : Nat) :
    (∀ oracle ts, get_topics oracle max_retries = some ts →
        ts ≠ [] ∧ ∃ k, k ≤ max_retries ∧ attemptResult (oracle k) = some ts
          ∧ ∀ j, j < k → attemptResult (oracle j) = none)
    ∧ (∀ oracle, get_topics oracle max_retries = none ↔
        ∀ k, k ≤ max_retries → attemptResult (oracle k) = none)
    ∧ (∀ o1 o2, (∀ k, k ≤ max_retries → o1 k = o2 k) →
        get_topics o1 max_retries = get_topics o2 max_retries) := by
  refine ⟨?_, ?_, ?_⟩
  · intro oracle ts h
    obtain ⟨k, hk, hres, hmin⟩ := get_topicsLoop_some_first oracle (max_retries + 1) 0 ts h
    simp only [Nat.zero_add] at hres hmin
    exact ⟨attemptResult_ne_nil (oracle k) ts hres, k, by omega, hres, hmin⟩
  · intro oracle
    rw [get_topics, get_topicsLoop_none_iff]
    simp only [Nat.zero_add]
    constructor
    · intro h k hk
      exact h k (by omega)
    · intro h k hk
      exact h k (by omega)
  · intro o1 o2 h
    rw [get_topics, get_topics]
    exact get_topicsLoop_congr o1 o2 (max_retries + 1) 0 (fun k hk => by
      simp only [Nat.zero_add]
      exact h k (by omega))

theorem c6_witness : get_topics oW6 5 = get_topics oW6b 5 :=
  (c6_page_fetcher_retry_contract 5).2.2 oW6 oW6b (by decide)


theorem chLe_total : ∀ a b : List Char, chLe a b = true ∨ chLe b a = true := by
  intro a
  induction a with
  | nil => intro b; left; rfl
  | cons x xs ih =>
    intro b
    cases b with
    | nil => right; rfl
    | cons y ys =>
      simp only [chLe]
      rcases Nat.lt_trichotomy x.toNat y.toNat with hxy | hxy | hxy
      · left
        rw [if_pos hxy]
      · rw [if_neg (by omega : ¬ x.toNat < y.toNat), if_neg (by omega : ¬ y.toNat < x.toNat),
          if_neg (by omega : ¬ y.toNat < x.toNat), if_neg (by omega : ¬ x.toNat < y.toNat)]
        exact ih ys
      · right
        rw [if_pos hxy]

theorem chLe_trans : ∀ a b c : List Char,
    chLe a b = true → chLe b c = true → chLe a c = true := by
  intro a
  induction a with
  | nil => intro b c _ _; rfl
  | cons x xs ih =>
    intro b c hab hbc
    cases b with
    | nil => simp [chLe] at hab
    | cons y ys =>
      cases c with
      | nil => simp [chLe] at hbc
      | cons z zs =>
        simp only [chLe] at hab hbc ⊢
        rcases Nat.lt_trichotomy x.toNat y.toNat with hxy | hxy | hxy
        · rcases Nat.lt_trichotomy y.toNat z.toNat with hyz | hyz | hyz
          · rw [if_pos (by omega : x.toNat < z.toNat)]
          · rw [if_pos (by omega : x.toNat < z.toNat)]
          · rw [if_neg (by omega : ¬ y.toNat < z.toNat), if_pos hyz] at hbc
            exact Bool.noConfusion hbc
        · rw [if_neg (by omega : ¬ x.toNat < y.toNat),
            if_neg (by omega : ¬ y.toNat < x.toNat)] at hab
          rcases Nat.lt_trichotomy y.toNat z.toNat with hyz | hyz | hyz
          · rw [if_pos (by omega : x.toNat < z.toNat)]
          · rw [if_neg (by omega : ¬ y.toNat < z.toNat),
              if_neg (by omega : ¬ z.toNat < y.toNat)] at hbc
            rw [if_neg (by omega : ¬ x.toNat < z.toNat),
              if_neg (by omega : ¬ z.toNat < x.toNat)]
            exact ih ys zs hab hbc
          · rw [if_neg (by omega : ¬ y.toNat < z.toNat), if_pos hyz] at hbc
            exact Bool.noConfusion hbc
        · rw [if_neg (by omega : ¬ x.toNat < y.toNat), if_pos hxy] at hab
          exact Bool.noConfusion hab

theorem entryRel_total : ∀ a b : IndexEntry, entryRel a b ∨ entryRel b a := by
  intro a b
  exact chLe_total b.create_time.data a.create_time.data

theorem entryRel_trans : ∀ a b c : IndexEntry, entryRel a b → entryRel b c → entryRel a c := by
  intro a b c hab hbc
  exact chLe_trans c.create_time.data b.create_time.data a.create_time.data hbc hab

theorem mem_new_entriesOf_iff (now : DTime) (F : List String) (topics : List Topic)
    (e : IndexEntry) :
    e ∈ new_entriesOf now F topics ↔
      ∃ t ∈ topics, deriveEntry now t = some e ∧ e.filename ∉ F := by
  rw [new_entriesOf]
  rw [List.mem_filterMap]
  constructor
  · rintro ⟨t, ht, hf⟩
    cases hd : deriveEntry now t with
    | none =>
      rw [hd] at hf
      exact Option.noConfusion hf
    | some e2 =>
      rw [hd] at hf
      dsimp only at hf
      by_cases hc : F.contains e2.filename
      · rw [if_pos hc] at hf
        exact Option.noConfusion hf
      · rw [if_neg hc] at hf
        injection hf with hf2
        subst hf2
        exact ⟨t, ht, hd, fun hm => hc (List.elem_iff.mpr hm)⟩
  · rintro ⟨t, ht, hd, hnf⟩
    refine ⟨t, ht, ?_⟩
    rw [hd]
    dsimp only
    rw [if_neg (fun hc => hnf (List.elem_iff.mp hc))]

theorem new_entriesOf_of_not_mem (now : DTime) (F : List String) (topics : List Topic)
    (h : ∀ t ∈ topics, ∀ e, deriveEntry now t = some e → e.filename ∉ F) :
    new_entriesOf now F topics = topics.filterMap (deriveEntry now) := by
  induction topics with
  | nil => rfl
  | cons t ts ih =>
    have hts := ih (fun t2 h2 => h t2 (List.mem_cons_of_mem t h2))
    have ht := h t (List.mem_cons_self t ts)
    simp only [new_entriesOf, List.filterMap_cons] at hts ⊢
    cases hd : deriveEntry now t with
    | none =>
      dsimp only
      exact hts
    | some e =>
      dsimp only
      rw [if_neg (fun hc => ht e hd (List.elem_iff.mp hc))]
      dsimp only
      rw [hts]

/-- C2: when the derived filenames of the fetched records are disjoint
from those of the existing index entries `E`, a rewrite of the index is
exactly the entries of `E` together with all derived new entries,
sorted descending by display timestamp (a permutation of `E ++ N` that
is `entryRel`-sorted), with every entry of `E` appearing exactly as
often as before (none dropped, none duplicated); and, with no
disjointness assumption, an entry whose filename is already in the
existing-filename set is never added to `new_entries`. -/
theorem c2_index_merge_exact (now : DTime) (E : List IndexEntry) (topics : List Topic)
    (hdisj : ∀ t ∈ topics, ∀ e, deriveEntry now t = some e →
        e.filename ∉ E.map (fun x => x.filename)) :
    (∀ out, create_markdown now E topics = some out →
        out.Perm (E ++ topics.filterMap (deriveEntry now))
        ∧ List.Sorted entryRel out
        ∧ ∀ e ∈ E, List.count e out = List.count e E)
    ∧ ∀ (F : List String) (ts : List Topic) (e : IndexEntry),
        e ∈ new_entriesOf now F ts → e.filename ∉ F := by
  have hNE : new_entriesOf now (E.map (fun x => x.filename)) topics
      = topics.filterMap (deriveEntry now) :=
    new_entriesOf_of_not_mem now _ topics hdisj
  constructor
  · intro out hout
    simp only [create_markdown] at hout
    rw [hNE] at hout
    by_cases hemp : topics.filterMap (deriveEntry now) = []
    · rw [if_pos hemp] at hout
      exact Option.noConfusion hout
    · rw [if_neg hemp] at hout
      injection hout with hout
      subst hout
      refine ⟨List.perm_insertionSort entryRel _, ?_, ?_⟩
      · exact @List.sorted_insertionSort IndexEntry entryRel _ ⟨entryRel_total⟩
          ⟨entryRel_trans⟩ (E ++ topics.filterMap (deriveEntry now))
      · intro e heE
        show List.count e
          (List.insertionSort entryRel (E ++ topics.filterMap (deriveEntry now)))
            = List.count e E
        rw [List.Perm.count_eq (List.perm_insertionSort entryRel _) e]
        rw [List.count_append]
        have hzero : List.count e (topics.filterMap (deriveEntry now)) = 0 := by
          apply List.count_eq_zero_of_not_mem
          intro hmem
          obtain ⟨t, ht, hd⟩ := List.mem_filterMap.mp hmem
          exact hdisj t ht e hd (List.mem_map.mpr ⟨e, heE, rfl⟩)
        rw [hzero]
        rw [Nat.add_zero]
  · intro F ts e he
    exact ((mem_new_entriesOf_iff now F ts e).mp he).choose_spec.2.2

theorem c2_witness :
    ([newE2, eE1] : List IndexEntry).Perm ([eE1] ++ [goodTopic].filterMap (deriveEntry dtB))
    ∧ List.Sorted entryRel [newE2, eE1]
    ∧ List.count eE1 [newE2, eE1] = List.count eE1 [eE1] := by
  have hdisj : ∀ t ∈ [goodTopic], ∀ e, deriveEntry dtB t = some e →
      e.filename ∉ ([eE1] : List IndexEntry).map (fun x => x.filename) := by
    intro t ht e hd
    rw [List.mem_singleton] at ht
    subst ht
    injection hd with hd2
    subst hd2
    decide
  have h := (c2_index_merge_exact dtB [eE1] [goodTopic] hdisj).1 [newE2, eE1] (by decide)
  exact ⟨h.1, h.2.1, h.2.2 eE1 (by decide)⟩

theorem deriveEntry_now_irrel (n1 n2 : DTime) (t : Topic) (d : DTime)
    (ht : t.create_time = CreateTime.parsed d) :
    deriveEntry n1 t = deriveEntry n2 t := by
  cases htalk : t.talk with
  | none => simp [deriveEntry, htalk]
  | some a => simp [deriveEntry, htalk, derived_filename, get_filename_time, ht]

theorem filterMap_parse_id (l : List IndexEntry)
    (h : ∀ e ∈ l, parseIndexRow (rowLine e) = some e) :
    l.filterMap (fun e => parseIndexRow (rowLine e)) = l := by
  induction l with
  | nil => rfl
  | cons e es ih =>
    rw [List.filterMap_cons, h e (List.mem_cons_self e es)]
    rw [ih (fun x hx => h x (List.mem_cons_of_mem e hx))]

theorem filename_mem_of_new_entriesOf_nil (now : DTime) (F : List String)
    (topics : List Topic) (h : new_entriesOf now F topics = []) :
    ∀ t ∈ topics, ∀ e, deriveEntry now t = some e → e.filename ∈ F := by
  intro t ht e hd
  by_contra hc
  have hmem : e ∈ new_entriesOf now F topics :=
    (mem_new_entriesOf_iff now F topics e).mpr ⟨t, ht, hd, hc⟩
  rw [h] at hmem
  exact absurd hmem (List.not_mem_nil e)

/-- A row whose author name holds the column separator does not survive
the write-then-parse round trip: the shifted cell 4 has no opening
parenthesis, the extraction raises and the reader skips the row
(spider.py 544-558). This is one of the two failure modes forcing the
hypotheses of the amended C7 theorem. -/
theorem rowLine_pipe_author_lost :
    parseIndexRow (rowLine ⟨"2024-01-01 00:00:00", "a|b", "t1", "f1.md"⟩) = none := by
  decide

/-- A filename holding a parenthesis (not stripped by
`sanitize_filename`) is mangled by the `split('(')[1].split(')')[0]`
extraction of spider.py 552: the row re-parses to a DIFFERENT entry,
so the original entry's filename is absent on the second run. -/
theorem rowLine_paren_filename_mangled :
    parseIndexRow (rowLine ⟨"2024-01-01 00:00:00", "a(b", "t1", "x_a(b.md"⟩) =
      some ⟨"2024-01-01 00:00:00", "a(b", "t1", "b.md]"⟩ := by
  decide

/-- C7 counterexample: with an unchanged record list but a later wall
clock, a record whose timestamp fails to parse derives a different
filename on the second run (see `get_filename_time`), so the second
run — reading back the index file the first run wrote — adds a new
entry and rewrites the index instead of leaving it untouched. -/
theorem c7_counterexample :
    create_markdown dtA (second_run_existing dtB [] [tRaw]) [tRaw] ≠ none := by
  decide

/-- C7 (amended): a second run of the index merge over the unchanged
upstream result produces zero new entries and performs no rewrite
(returns `none`), whatever the wall-clock instants of the two runs,
provided (a) every record's creation timestamp parses (else the
wall-clock filename fallback changes the derived filename between
runs) and (b) every entry of a rewritten index survives the row
write-then-parse round trip (else the lossy reader of spider.py
544-558 drops or mangles the row — see `rowLine_pipe_author_lost` and
`rowLine_paren_filename_mangled` — and the record is re-added). -/
theorem c7_second_run_no_new_entries (now now2 : DTime) (E : List IndexEntry)
    (topics : List Topic)
    (hp : ∀ t ∈ topics, ∃ d, t.create_time = CreateTime.parsed d)
    (hrt : ∀ out, create_markdown now E topics = some out →
        ∀ e ∈ out, parseIndexRow (rowLine e) = some e) :
    create_markdown now2 (second_run_existing now E topics) topics = none := by
  cases hcm : create_markdown now E topics with
  | none =>
    have hsre : second_run_existing now E topics = E := by
      rw [second_run_existing, hcm]
    have hnil : new_entriesOf now (E.map (fun x => x.filename)) topics = [] := by
      by_cases hnil : new_entriesOf now (E.map (fun x => x.filename)) topics = []
      · exact hnil
      · simp only [create_markdown] at hcm
        rw [if_neg hnil] at hcm
        exact Option.noConfusion hcm
    rw [hsre]
    have key : new_entriesOf now2 (E.map (fun x => x.filename)) topics = [] := by
      rw [new_entriesOf, List.filterMap_eq_nil_iff]
      intro t ht
      obtain ⟨d, hd⟩ := hp t ht
      cases hde : deriveEntry now2 t with
      | none => simp [hde]
      | some e =>
        have hde1 : deriveEntry now t = some e :=
          (deriveEntry_now_irrel now now2 t d hd).trans hde
        have hin : e.filename ∈ E.map (fun x => x.filename) :=
          filename_mem_of_new_entriesOf_nil now _ topics hnil t ht e hde1
        simp only [hde]
        rw [if_pos (List.elem_iff.mpr hin)]
    simp [create_markdown, key]
  | some out =>
    have hnil : ¬ new_entriesOf now (E.map (fun x => x.filename)) topics = [] := by
      intro hnil
      simp only [create_markdown] at hcm
      rw [if_pos hnil] at hcm
      exact Option.noConfusion hcm
    have hout : out = sortEntriesDesc
        (E ++ new_entriesOf now (E.map (fun x => x.filename)) topics) := by
      simp only [create_markdown] at hcm
      rw [if_neg hnil] at hcm
      exact (Option.some.inj hcm).symm
    have hsre : second_run_existing now E topics = out := by
      rw [second_run_existing, hcm]
      exact filterMap_parse_id out (hrt out hcm)
    rw [hsre]
    have key : new_entriesOf now2 (out.map (fun x => x.filename)) topics = [] := by
      rw [new_entriesOf, List.filterMap_eq_nil_iff]
      intro t ht
      obtain ⟨d, hd⟩ := hp t ht
      cases hde : deriveEntry now2 t with
      | none => simp [hde]
      | some e =>
        have hde1 : deriveEntry now t = some e :=
          (deriveEntry_now_irrel now now2 t d hd).trans hde
        have hperm : (out.map (fun x => x.filename)).Perm
            ((E ++ new_entriesOf now (E.map (fun x => x.filename)) topics).map
              (fun x => x.filename)) := by
          rw [hout]
          exact (List.perm_insertionSort entryRel _).map _
        have hin : e.filename ∈ out.map (fun x => x.filename) := by
          rw [hperm.mem_iff, List.map_append, List.mem_append]
          by_cases hc : e.filename ∈ E.map (fun x => x.filename)
          · exact Or.inl hc
          · refine Or.inr (List.mem_map.mpr ⟨e, ?_, rfl⟩)
            exact (mem_new_entriesOf_iff now _ topics e).mpr ⟨t, ht, hde1, hc⟩
        simp only [hde]
        rw [if_pos (List.elem_iff.mpr hin)]
    simp [create_markdown, key]

theorem c7_witness :
    create_markdown dtB (second_run_existing dtA [eE1] [goodTopic]) [goodTopic] = none :=
  c7_second_run_no_new_entries dtA dtB [eE1] [goodTopic]
    (by
      intro t ht
      rw [List.mem_singleton] at ht
      subst ht
      exact ⟨dtA, rfl⟩)
    (by
      intro out hcm e he
      rw [show create_markdown dtA [eE1] [goodTopic] = some [newE2, eE1] from by decide]
        at hcm
      injection hcm with h2
      subst h2
      simp only [List.mem_cons, List.not_mem_nil, or_false] at he
      rcases he with rfl | rfl
      · decide
      · decide)
